import Mathlib

/-!
Shallow embedding of the stock-frontend core: the TTL request cache
(`src/lib/api.ts`, class `SimpleCache`) and the duplicate-ticker merge
resolver (`src/components/EditTickerModal.tsx`).

JavaScript runtime values that flow through the completeness check are
modelled by `JSValue`; numbers are modelled as rationals (the code only
ever compares them with `0`).  The cache's `Map<string, CacheEntry>` is
modelled as a function `String → Option (CacheEntry α)`; timestamps are
integers and `Date.now()` is passed explicitly as `now`.
-/

/-- A JavaScript runtime value as inspected by the emptiness checks
(`value === null || value === undefined || value === '' || value === 0`). -/
inductive JSValue where
  | null : JSValue
  | undef : JSValue
  | str : String → JSValue
  | num : ℚ → JSValue
deriving DecidableEq

/-- The emptiness test used in `countFilledFields` and `performMerge`:
`value === null || value === undefined || value === '' || value === 0`.
Strict equality in JS never identifies values of different runtime types,
so the test is per-constructor. -/
def jsIsEmpty : JSValue → Bool
  | JSValue.null => true
  | JSValue.undef => true
  | JSValue.str s => decide (s = "")
  | JSValue.num q => decide (q = 0)

/-- JS template-literal stringification, used in the audit reason string. -/
def jsToString : JSValue → String
  | JSValue.null => "null"
  | JSValue.undef => "undefined"
  | JSValue.str s => s
  | JSValue.num q => toString q

/-- Does list `p` occur as a leading segment of `l`? (helper for
JavaScript's `String.prototype.includes`). -/
def listStartsWith : List Char → List Char → Bool
  | [], _ => true
  | _ :: _, [] => false
  | p :: ps, c :: cs => p == c && listStartsWith ps cs

/-- Does list `p` occur as a contiguous segment of `l`? -/
def listHasSubstr (p : List Char) : List Char → Bool
  | [] => listStartsWith p []
  | c :: cs => listStartsWith p (c :: cs) || listHasSubstr p cs

/-- JavaScript `key.includes(pat)`: `pat` occurs as a substring of `key`. -/
def strIncludes (key pat : String) : Bool :=
  listHasSubstr pat.data key.data

/-- JavaScript `ticker.toUpperCase()`, modelled as uppercasing each
character (the tickers involved are ASCII). -/
def strToUpper (s : String) : String :=
  String.mk (s.data.map Char.toUpper)

/-- `CacheEntry<T>` from `src/lib/api.ts`: `{ data: T; timestamp: number }`. -/
structure CacheEntry (α : Type) where
  data : α
  timestamp : ℤ
deriving DecidableEq

/-- The `Map<string, CacheEntry<any>>` backing `SimpleCache`, as a function
from keys to optional entries. -/
def CacheMap (α : Type) := String → Option (CacheEntry α)

namespace SimpleCache

/-- `SimpleCache.get` (`src/lib/api.ts:16`): returns the hit (or `none` for
a MISS) together with the map after the call, since an expired entry is
deleted on read. -/
def get {α : Type} (cache : CacheMap α) (now : ℤ) (key : String) (ttl : ℤ) :
    Option α × CacheMap α :=
  match cache key with
  | none => (none, cache)
  | some entry =>
    let age := now - entry.timestamp
    if age > ttl then
      (none, fun k => if k = key then none else cache k)
    else
      (some entry.data, cache)

/-- `SimpleCache.set` (`src/lib/api.ts:29`): unconditionally store `data`
with `timestamp = now`, overwriting any prior entry. -/
def set {α : Type} (cache : CacheMap α) (now : ℤ) (key : String) (data : α) :
    CacheMap α :=
  fun k => if k = key then some ⟨data, now⟩ else cache k

/-- JS truthiness of the optional `pattern` argument: `!pattern` holds for
a missing argument and for the empty string. -/
def patternFalsy : Option String → Bool
  | none => true
  | some s => decide (s = "")

/-- `SimpleCache.invalidate` (`src/lib/api.ts:36`): with a falsy pattern the
whole map is cleared; otherwise every key containing the pattern as a
substring is deleted. -/
def invalidate {α : Type} (cache : CacheMap α) (pattern : Option String) :
    CacheMap α :=
  if patternFalsy pattern then
    fun _ => none
  else
    fun k => if strIncludes k (pattern.getD "") then none else cache k

end SimpleCache

/-- `listStartsWith []` always succeeds (the empty pattern is a leading
segment of anything). -/
theorem listStartsWith_nil (l : List Char) : listStartsWith [] l = true := by
  cases l <;> rfl

/-- The empty pattern is a substring of every list. -/
theorem listHasSubstr_nil (l : List Char) : listHasSubstr [] l = true := by
  cases l with
  | nil => rfl
  | cons c cs => simp [listHasSubstr, listStartsWith_nil]

/-- The empty string is contained in every key. -/
theorem strIncludes_empty (key : String) : strIncludes key "" = true := by
  simpa [strIncludes] using listHasSubstr_nil key.data

/-- The fixed completeness-relevant field set iterated by
`countFilledFields` (`src/components/EditTickerModal.tsx:32`). -/
inductive CField where
  | company_name | sector | isin | current_price | fair_value
  | beta | volatility | pe_ratio | eps_growth_rate | debt_to_ebitda
  | dividend_yield | shares_owned | avg_price_local | comment
deriving DecidableEq

/-- The `fields` array of `countFilledFields`, in source order. -/
def completenessFields : List CField :=
  [CField.company_name, CField.sector, CField.isin, CField.current_price,
   CField.fair_value, CField.beta, CField.volatility, CField.pe_ratio,
   CField.eps_growth_rate, CField.debt_to_ebitda, CField.dividend_yield,
   CField.shares_owned, CField.avg_price_local, CField.comment]

/-- A `Stock` record as consumed by the resolver: the backend-assigned id,
the ticker, and the runtime values of the completeness-relevant fields
(accessed in the source by string-keyed lookup `stock[field]`). -/
structure Stock where
  id : ℤ
  ticker : String
  fields : CField → JSValue

/-- One step of the `fields.forEach` accumulation in `countFilledFields`:
an empty value is appended to `emptyFields`, a filled one bumps the count. -/
def countFilledStep (stock : Stock) (acc : ℕ × List CField) (f : CField) :
    ℕ × List CField :=
  if jsIsEmpty (stock.fields f) then (acc.1, acc.2 ++ [f])
  else (acc.1 + 1, acc.2)

/-- `countFilledFields` (`src/components/EditTickerModal.tsx:31`): the pair
`(count, emptyFields)` accumulated over the fixed field list. -/
def countFilledFields (stock : Stock) : ℕ × List CField :=
  completenessFields.foldl (countFilledStep stock) (0, [])

/-- A `MergeCandidate` (`src/components/EditTickerModal.tsx:14`). -/
structure MergeCandidate where
  stock : Stock
  filledFields : ℕ
  emptyFields : List CField

/-- The `mergePreview` value: target survives, source is deleted. -/
structure MergePlan where
  target : MergeCandidate
  source : MergeCandidate

/-- The duplicate search of the `useEffect`
(`src/components/EditTickerModal.tsx:54`): runs only for a truthy proposed
ticker different from the current one, and finds the first other stock
whose ticker matches case-insensitively. -/
def detectDuplicate (newTicker : String) (stock : Stock)
    (allStocks : List Stock) : Option Stock :=
  if newTicker ≠ "" ∧ newTicker ≠ stock.ticker then
    allStocks.find? (fun s =>
      decide (s.id ≠ stock.id ∧ (strToUpper s.ticker) = (strToUpper newTicker)))
  else
    none

/-- Target selection of the `useEffect`
(`src/components/EditTickerModal.tsx:64`): the current stock becomes the
target when its filled count is greater than or equal to the duplicate's. -/
def buildMergePreview (stock duplicate : Stock) : MergePlan :=
  let currentStockAnalysis := countFilledFields stock
  let duplicateAnalysis := countFilledFields duplicate
  if currentStockAnalysis.1 ≥ duplicateAnalysis.1 then
    { target := { stock := stock, filledFields := currentStockAnalysis.1,
                  emptyFields := currentStockAnalysis.2 },
      source := { stock := duplicate, filledFields := duplicateAnalysis.1,
                  emptyFields := duplicateAnalysis.2 } }
  else
    { target := { stock := duplicate, filledFields := duplicateAnalysis.1,
                  emptyFields := duplicateAnalysis.2 },
      source := { stock := stock, filledFields := currentStockAnalysis.1,
                  emptyFields := currentStockAnalysis.2 } }

/-- The `mergeData` object (`src/components/EditTickerModal.tsx:136`):
a `ticker` entry plus an optional entry per completeness field. -/
structure MergeData where
  ticker : String
  fields : CField → Option JSValue

/-- One step of the `target.emptyFields.forEach` loop of `performMerge`:
a non-empty source value is added to `mergeData` under its field name. -/
def mergeDataStep (source : MergeCandidate) (md : MergeData) (f : CField) :
    MergeData :=
  let sourceValue := source.stock.fields f
  if sourceValue ≠ JSValue.null ∧ sourceValue ≠ JSValue.undef ∧
     sourceValue ≠ JSValue.str "" ∧ sourceValue ≠ JSValue.num 0 then
    { md with fields := fun g => if g = f then some sourceValue else md.fields g }
  else
    md

/-- The `mergeData` built by `performMerge`
(`src/components/EditTickerModal.tsx:136`): starts with only the
uppercased ticker entry and receives the source's non-empty values for
each of the target's empty fields. -/
def mergeDataOf (newTicker : String) (target source : MergeCandidate) :
    MergeData :=
  target.emptyFields.foldl (mergeDataStep source)
    { ticker := (strToUpper newTicker), fields := fun _ => none }

/-- One backend or cache call issued by the modal, in program order. -/
inductive ApiCall where
  | updateField : ℤ → String → JSValue → ApiCall
  | updateStock : ℤ → MergeData → ApiCall
  | deleteStock : ℤ → String → ApiCall
  | invalidateCacheCall : Option String → ApiCall

/-- The audit reason string passed to `stockAPI.delete`
(`src/components/EditTickerModal.tsx:149`). -/
def mergeReason (target : MergeCandidate) : String :=
  "Merged into " ++ target.stock.ticker ++ " (" ++
    jsToString (target.stock.fields CField.company_name) ++ ")"

/-- `performMerge` (`src/components/EditTickerModal.tsx:130`) as the
sequence of backend calls it issues: update the target with the merged
data, then delete the source with the audit reason. -/
def performMerge (newTicker : String) (plan : MergePlan) : List ApiCall :=
  [ApiCall.updateStock plan.target.stock.id
      (mergeDataOf newTicker plan.target plan.source),
   ApiCall.deleteStock plan.source.stock.id (mergeReason plan.target)]

/-- `handleSubmit` (`src/components/EditTickerModal.tsx:106`) as the
sequence of backend calls it issues: the merge sequence when a duplicate
was detected, otherwise a single ticker field patch with the uppercased
proposed ticker. -/
def handleSubmit (newTicker : String) (stock : Stock)
    (allStocks : List Stock) : List ApiCall :=
  match detectDuplicate newTicker stock allStocks with
  | some duplicate => performMerge newTicker (buildMergePreview stock duplicate)
  | none => [ApiCall.updateField stock.id "ticker"
      (JSValue.str (strToUpper newTicker))]

/-- Is a call the cache-invalidation helper `invalidateCache`? -/
def ApiCall.isInvalidate : ApiCall → Bool
  | ApiCall.invalidateCacheCall _ => true
  | _ => false

/-- Is a call a `stockAPI.delete`? -/
def ApiCall.isDelete : ApiCall → Bool
  | ApiCall.deleteStock _ _ => true
  | _ => false

/-- The ticker value a call sends to the backend, when it sends one. -/
def tickerSentOf : ApiCall → Option String
  | ApiCall.updateField _ f v =>
      if f = "ticker" then
        match v with
        | JSValue.str t => some t
        | _ => none
      else none
  | ApiCall.updateStock _ md => some md.ticker
  | _ => none

/-- The reason string of the first delete call in a sequence, if any. -/
def deleteReasonOf (calls : List ApiCall) : Option String :=
  calls.findSome? (fun c =>
    match c with
    | ApiCall.deleteStock _ reason => some reason
    | _ => none)

/-- The effect of a call sequence on the client cache: only
`invalidateCache` touches it, all backend calls leave it unchanged. -/
def cacheAfterCalls {α : Type} (cache : CacheMap α) (calls : List ApiCall) :
    CacheMap α :=
  calls.foldl (fun c call =>
    match call with
    | ApiCall.invalidateCacheCall p => SimpleCache.invalidate c p
    | _ => c) cache

/-- Applying a `stockAPI.update(target.id, mergeData)` to a stock record:
the ticker and every field present in the merge data are overwritten. -/
def applyMergeData (s : Stock) (md : MergeData) : Stock :=
  { s with ticker := md.ticker,
           fields := fun f =>
             match md.fields f with
             | some v => v
             | none => s.fields f }

/-- Modelled from the spec: the opaque REST backend's documented effect of
each write on its stock list (update-stock rewrites the matching record,
delete-stock removes it); the backend itself is outside this repository. -/
def applyCall (stocks : List Stock) : ApiCall → List Stock
  | ApiCall.updateField i f v =>
      stocks.map (fun s =>
        if s.id = i ∧ f = "ticker" then
          { s with ticker := match v with
              | JSValue.str t => t
              | _ => s.ticker }
        else s)
  | ApiCall.updateStock i md =>
      stocks.map (fun s => if s.id = i then applyMergeData s md else s)
  | ApiCall.deleteStock i _ =>
      stocks.filter (fun s => decide (s.id ≠ i))
  | ApiCall.invalidateCacheCall _ => stocks

/-- Run a call sequence against backend state `stocks`, where `fails`
says which calls the backend rejects: calls are applied in order until the
first failure, which aborts the rest (the `await` chain throws); the
result is the final state and the failing call, if any. -/
def runCallsState (fails : ApiCall → Bool) (stocks : List Stock) :
    List ApiCall → List Stock × Option ApiCall
  | [] => (stocks, none)
  | c :: rest =>
    if fails c then (stocks, some c)
    else runCallsState fails (applyCall stocks c) rest

/-- The error message surfaced by the `catch` clause of `handleSubmit`
(`src/components/EditTickerModal.tsx:124`):
`err.response?.data?.error || 'Failed to update ticker'`. -/
def errorMessage (serverDetail : Option String) : String :=
  match serverDetail with
  | some s => if s = "" then "Failed to update ticker" else s
  | none => "Failed to update ticker"

/-- Every completeness field is in the fixed field list. -/
theorem mem_completenessFields (f : CField) : f ∈ completenessFields := by
  cases f <;> simp [completenessFields]

/-- The `forEach` accumulation of `countFilledFields`, characterised:
the count grows by the number of filled fields of the segment and the
empty ones are appended in order. -/
theorem countFilled_foldl (s : Stock) (l : List CField) (n : ℕ)
    (acc : List CField) :
    l.foldl (countFilledStep s) (n, acc) =
      (n + (l.filter (fun f => !jsIsEmpty (s.fields f))).length,
       acc ++ l.filter (fun f => jsIsEmpty (s.fields f))) := by
  induction l generalizing n acc with
  | nil => simp
  | cons a l ih =>
    by_cases h : jsIsEmpty (s.fields a) = true
    · simp [countFilledStep, h, ih]
    · simp only [Bool.not_eq_true] at h
      simp [countFilledStep, h, ih, Nat.add_comm, Nat.add_assoc,
        Nat.add_left_comm]

/-- `countFilledFields` computes the number of filled fields and the list
of empty ones, both as filters of the fixed field list. -/
theorem countFilledFields_eq (s : Stock) :
    countFilledFields s =
      ((completenessFields.filter (fun f => !jsIsEmpty (s.fields f))).length,
       completenessFields.filter (fun f => jsIsEmpty (s.fields f))) := by
  simpa [countFilledFields] using
    countFilled_foldl s completenessFields 0 []

/-- Membership in the computed `emptyFields` is exactly emptiness of the
field's value. -/
theorem mem_emptyFields_iff (s : Stock) (f : CField) :
    f ∈ (countFilledFields s).2 ↔ jsIsEmpty (s.fields f) = true := by
  rw [countFilledFields_eq]
  simp [List.mem_filter, mem_completenessFields]

/-- The inline emptiness condition of `performMerge` agrees with
`jsIsEmpty`. -/
theorem mergeCond_iff (v : JSValue) :
    (v ≠ JSValue.null ∧ v ≠ JSValue.undef ∧
     v ≠ JSValue.str "" ∧ v ≠ JSValue.num 0) ↔ jsIsEmpty v = false := by
  cases v <;> simp [jsIsEmpty]

/-- The `forEach` loop of `performMerge` never touches the ticker entry. -/
theorem mergeData_foldl_ticker (src : MergeCandidate) (l : List CField)
    (md : MergeData) :
    (l.foldl (mergeDataStep src) md).ticker = md.ticker := by
  induction l generalizing md with
  | nil => rfl
  | cons a l ih =>
    rw [List.foldl_cons, ih]
    by_cases h : jsIsEmpty (src.stock.fields a) = false
    · rw [mergeDataStep, if_pos ((mergeCond_iff _).mpr h)]
    · rw [mergeDataStep, if_neg (fun hc => h ((mergeCond_iff _).mp hc))]

/-- The `forEach` loop of `performMerge`, characterised per field: a field
of the iterated list whose source value is non-empty ends up mapped to the
source value; any other field keeps its initial entry. -/
theorem mergeData_foldl_fields (src : MergeCandidate) (l : List CField)
    (md : MergeData) (f : CField) :
    (l.foldl (mergeDataStep src) md).fields f =
      if f ∈ l ∧ jsIsEmpty (src.stock.fields f) = false then
        some (src.stock.fields f)
      else md.fields f := by
  induction l generalizing md with
  | nil => simp
  | cons a l ih =>
    rw [List.foldl_cons, ih]
    by_cases hfl : f ∈ l ∧ jsIsEmpty (src.stock.fields f) = false
    · rw [if_pos hfl, if_pos ⟨List.mem_cons_of_mem a hfl.1, hfl.2⟩]
    · rw [if_neg hfl]
      by_cases he : jsIsEmpty (src.stock.fields a) = false
      · rw [mergeDataStep, if_pos ((mergeCond_iff _).mpr he)]
        by_cases hfa : f = a
        · subst hfa
          rw [if_pos ⟨List.mem_cons_self f l, he⟩]
          simp
        · have : ¬ (f ∈ a :: l ∧ jsIsEmpty (src.stock.fields f) = false) := by
            intro hcon
            rcases List.mem_cons.mp hcon.1 with h1 | h1
            · exact hfa h1
            · exact hfl ⟨h1, hcon.2⟩
          rw [if_neg this]
          simp [hfa]
      · rw [mergeDataStep, if_neg (fun hc => he ((mergeCond_iff _).mp hc))]
        have : ¬ (f ∈ a :: l ∧ jsIsEmpty (src.stock.fields f) = false) := by
          intro hcon
          rcases List.mem_cons.mp hcon.1 with h1 | h1
          · exact he (h1 ▸ hcon.2)
          · exact hfl ⟨h1, hcon.2⟩
        rw [if_neg this]

/-- The ticker entry of the built merge data is the uppercased proposal. -/
theorem mergeDataOf_ticker (newTicker : String) (target source : MergeCandidate) :
    (mergeDataOf newTicker target source).ticker = (strToUpper newTicker) := by
  simpa [mergeDataOf] using
    mergeData_foldl_ticker source target.emptyFields
      { ticker := (strToUpper newTicker), fields := fun _ => none }

/-- The field entries of the built merge data: exactly the target's empty
fields whose source value is non-empty, mapped to the source value. -/
theorem mergeDataOf_fields (newTicker : String) (target source : MergeCandidate)
    (f : CField) :
    (mergeDataOf newTicker target source).fields f =
      if f ∈ target.emptyFields ∧ jsIsEmpty (source.stock.fields f) = false then
        some (source.stock.fields f)
      else none := by
  simpa [mergeDataOf] using
    mergeData_foldl_fields source target.emptyFields
      { ticker := (strToUpper newTicker), fields := fun _ => none } f

/-- Both branches of the target selection wrap each stock with its own
completeness analysis. -/
theorem buildMergePreview_candidates (A B : Stock) :
    ((buildMergePreview A B).target.emptyFields =
       (countFilledFields (buildMergePreview A B).target.stock).2 ∧
     (buildMergePreview A B).source.emptyFields =
       (countFilledFields (buildMergePreview A B).source.stock).2) ∧
    ((buildMergePreview A B).target.filledFields =
       (countFilledFields (buildMergePreview A B).target.stock).1 ∧
     (buildMergePreview A B).source.filledFields =
       (countFilledFields (buildMergePreview A B).source.stock).1) := by
  unfold buildMergePreview
  by_cases h : (countFilledFields A).1 ≥ (countFilledFields B).1 <;>
    simp [h]

/-- The merge-update ticker of the first update-stock call in a sequence. -/
def mergeTickerOf (calls : List ApiCall) : Option String :=
  calls.findSome? (fun c =>
    match c with
    | ApiCall.updateStock _ md => some md.ticker
    | _ => none)

/-- A fully-filled stock used as a concrete instance. -/
def stockA : Stock :=
  { id := 1, ticker := "AAPL",
    fields := fun f =>
      match f with
      | CField.company_name => JSValue.str "Apple Inc"
      | CField.sector => JSValue.str "Tech"
      | CField.isin => JSValue.str "US0378331005"
      | CField.comment => JSValue.str "core holding"
      | _ => JSValue.num 1 }

/-- A mostly-empty stock (only the company name is filled) used as a
concrete instance. -/
def stockB : Stock :=
  { id := 2, ticker := "GOOG",
    fields := fun f =>
      match f with
      | CField.company_name => JSValue.str "Alphabet Inc"
      | _ => JSValue.num 0 }

/-- A stock whose ticker is the empty string, used as a concrete instance. -/
def stockBlankTicker : Stock :=
  { id := 2, ticker := "", fields := fun _ => JSValue.null }

/-- C1: Cache get semantics. For every key and `ttlMillis`, `get` returns
MISS when no entry exists; when the entry's age strictly exceeds the TTL it
deletes the entry and returns MISS, so a later `get` for that key with any
TTL and at any time (with no intervening `set`) is also a MISS; otherwise
(age at most the TTL, equality included) it returns the stored payload, in
particular the payload most recently stored by `set`. -/
theorem cache_get_semantics {α : Type} (c : CacheMap α) (now : ℤ)
    (key : String) (ttl : ℤ) :
    (c key = none → (SimpleCache.get c now key ttl).1 = none) ∧
    (∀ e : CacheEntry α, c key = some e → now - e.timestamp > ttl →
      (SimpleCache.get c now key ttl).1 = none ∧
      ∀ now2 ttl2,
        (SimpleCache.get (SimpleCache.get c now key ttl).2 now2 key ttl2).1 =
          none) ∧
    (∀ e : CacheEntry α, c key = some e → now - e.timestamp ≤ ttl →
      (SimpleCache.get c now key ttl).1 = some e.data) ∧
    (∀ (t : ℤ) (v : α), now - t ≤ ttl →
      (SimpleCache.get (SimpleCache.set c t key v) now key ttl).1 = some v) := by
  refine ⟨?_, ?_, ?_, ?_⟩
  · intro h
    simp [SimpleCache.get, h]
  · intro e he hexp
    have hdel : (SimpleCache.get c now key ttl).2 key = none := by
      simp [SimpleCache.get, he, hexp]
    refine ⟨by simp [SimpleCache.get, he, hexp], ?_⟩
    intro now2 ttl2
    have hmiss : ∀ c2 : CacheMap α, c2 key = none →
        (SimpleCache.get c2 now2 key ttl2).1 = none := by
      intro c2 h2
      simp [SimpleCache.get, h2]
    exact hmiss _ hdel
  · intro e he hle
    have hnot : ¬ now - e.timestamp > ttl := not_lt.mpr hle
    simp [SimpleCache.get, he, hnot]
  · intro t v hle
    have hkey : SimpleCache.set c t key v key = some ⟨v, t⟩ := by
      simp [SimpleCache.set]
    have hnot : ¬ now - t > ttl := not_lt.mpr hle
    simp [SimpleCache.get, hkey, hnot]

/-- Witness for C1: a freshly set `portfolio:summary` entry is returned
within its TTL, and after the TTL has elapsed by one millisecond the read
is a MISS. -/
theorem cache_get_semantics_witness :
    (SimpleCache.get
        (SimpleCache.set (fun _ => none : CacheMap ℕ) 0 "portfolio:summary" 42)
        30000 "portfolio:summary" 30000).1 = some 42 ∧
    (SimpleCache.get
        (SimpleCache.set (fun _ => none : CacheMap ℕ) 0 "portfolio:summary" 42)
        30001 "portfolio:summary" 30000).1 = none :=
  ⟨(cache_get_semantics _ 30000 "portfolio:summary" 30000).2.2.2 0 42
      (by decide),
   ((cache_get_semantics _ 30001 "portfolio:summary" 30000).2.1 ⟨42, 0⟩
      (by simp [SimpleCache.set]) (by decide)).1⟩

/-- C5: Invalidation semantics. With a pattern argument, `invalidate`
deletes exactly the entries whose key contains the pattern as a substring
(every other entry is unchanged); with no argument it deletes every entry.
In particular `"api:status"` does not contain `"portfolio"` while
`"portfolio:summary"` does. -/
theorem invalidate_semantics {α : Type} (c : CacheMap α) (p k : String) :
    SimpleCache.invalidate c (some p) k =
      (if strIncludes k p then none else c k) ∧
    SimpleCache.invalidate c none k = none ∧
    strIncludes "api:status" "portfolio" = false ∧
    strIncludes "portfolio:summary" "portfolio" = true := by
  refine ⟨?_, rfl, by decide, by decide⟩
  by_cases hp : p = ""
  · subst hp
    rw [strIncludes_empty, if_pos rfl]
    rfl
  · have hfalsy : SimpleCache.patternFalsy (some p) = false := by
      simp [SimpleCache.patternFalsy, hp]
    simp [SimpleCache.invalidate, hfalsy]

/-- C3: Completeness counting. `filledCount` is the number of fields of
the fixed 14-field list whose value is neither null, undefined, the empty
string, nor numeric zero, and `emptyFields` is exactly the complementary
sublist of field names. -/
theorem completeness_counting (s : Stock) :
    (countFilledFields s).1 =
      (completenessFields.filter (fun f => !jsIsEmpty (s.fields f))).length ∧
    (countFilledFields s).2 =
      completenessFields.filter (fun f => jsIsEmpty (s.fields f)) ∧
    ∀ f : CField,
      (f ∈ (countFilledFields s).2 ↔ jsIsEmpty (s.fields f) = true) := by
  refine ⟨?_, ?_, mem_emptyFields_iff s⟩
  · rw [countFilledFields_eq]
  · rw [countFilledFields_eq]

/-- C2: Merge target selection. The record with the strictly greater
`filledCount` becomes the plan's target and the other the source; on a tie
the stock being edited (the first argument) becomes target; in every plan
the target's filled count is at least the source's. -/
theorem merge_target_selection (A B : Stock) :
    ((countFilledFields B).1 < (countFilledFields A).1 →
      (buildMergePreview A B).target.stock = A ∧
      (buildMergePreview A B).source.stock = B) ∧
    ((countFilledFields A).1 < (countFilledFields B).1 →
      (buildMergePreview A B).target.stock = B ∧
      (buildMergePreview A B).source.stock = A) ∧
    ((countFilledFields A).1 = (countFilledFields B).1 →
      (buildMergePreview A B).target.stock = A ∧
      (buildMergePreview A B).source.stock = B) ∧
    (buildMergePreview A B).target.filledFields ≥
      (buildMergePreview A B).source.filledFields := by
  unfold buildMergePreview
  by_cases h : (countFilledFields A).1 ≥ (countFilledFields B).1
  · rw [if_pos h]
    exact ⟨fun _ => ⟨rfl, rfl⟩, fun hlt => absurd h (by omega),
      fun _ => ⟨rfl, rfl⟩, h⟩
  · rw [if_neg h]
    exact ⟨fun hlt => absurd hlt (by omega), fun _ => ⟨rfl, rfl⟩,
      fun heq => absurd heq (by omega),
      show (countFilledFields B).1 ≥ (countFilledFields A).1 by omega⟩

/-- Witness for C2: with the fully-filled `stockA` (14 filled fields)
edited into a collision with the mostly-empty `stockB` (1 filled field),
`stockA` is the target and `stockB` the source. -/
theorem merge_target_selection_witness :
    (buildMergePreview stockA stockB).target.stock = stockA ∧
    (buildMergePreview stockA stockB).source.stock = stockB :=
  (merge_target_selection stockA stockB).1 (by decide)

/-- C4: Field transfer correctness and frame. The merge update built for
the plan of an edited stock `A` colliding with `B` carries the uppercased
new ticker; its field entries are exactly the target's empty fields whose
source value is non-empty, each mapped to the source's value; every field
non-empty in the target is absent from the update and survives the
(simulated) application unchanged, and every transferred field ends up
holding the source's value. -/
theorem merge_field_transfer (A B : Stock) (newTicker : String) :
    (mergeDataOf newTicker (buildMergePreview A B).target
        (buildMergePreview A B).source).ticker = (strToUpper newTicker) ∧
    (∀ (f : CField) (v : JSValue),
      (mergeDataOf newTicker (buildMergePreview A B).target
          (buildMergePreview A B).source).fields f = some v ↔
        (f ∈ (buildMergePreview A B).target.emptyFields ∧
         v = (buildMergePreview A B).source.stock.fields f ∧
         jsIsEmpty v = false)) ∧
    (∀ f : CField,
      jsIsEmpty ((buildMergePreview A B).target.stock.fields f) = false →
      (mergeDataOf newTicker (buildMergePreview A B).target
          (buildMergePreview A B).source).fields f = none ∧
      (applyMergeData (buildMergePreview A B).target.stock
          (mergeDataOf newTicker (buildMergePreview A B).target
            (buildMergePreview A B).source)).fields f =
        (buildMergePreview A B).target.stock.fields f) ∧
    (∀ (f : CField) (v : JSValue),
      (mergeDataOf newTicker (buildMergePreview A B).target
          (buildMergePreview A B).source).fields f = some v →
      (applyMergeData (buildMergePreview A B).target.stock
          (mergeDataOf newTicker (buildMergePreview A B).target
            (buildMergePreview A B).source)).fields f = v) := by
  refine ⟨mergeDataOf_ticker newTicker _ _, ?_, ?_, ?_⟩
  · intro f v
    rw [mergeDataOf_fields]
    by_cases hc : f ∈ (buildMergePreview A B).target.emptyFields ∧
        jsIsEmpty ((buildMergePreview A B).source.stock.fields f) = false
    · rw [if_pos hc]
      constructor
      · intro hv
        have hv2 := Option.some.inj hv
        exact ⟨hc.1, hv2.symm, hv2 ▸ hc.2⟩
      · intro hv
        rw [hv.2.1]
    · rw [if_neg hc]
      constructor
      · intro hv
        exact absurd hv (Option.noConfusion)
      · intro hv
        exact absurd ⟨hv.1, hv.2.1 ▸ hv.2.2⟩ hc
  · intro f hf
    have hmem : f ∉ (buildMergePreview A B).target.emptyFields := by
      rw [(buildMergePreview_candidates A B).1.1]
      rw [mem_emptyFields_iff]
      simp [hf]
    have hnone : (mergeDataOf newTicker (buildMergePreview A B).target
        (buildMergePreview A B).source).fields f = none := by
      rw [mergeDataOf_fields, if_neg (fun hc => hmem hc.1)]
    exact ⟨hnone, by simp [applyMergeData, hnone]⟩
  · intro f v hv
    simp [applyMergeData, hv]

/-- Witness for C4: in the plan of editing `stockA` into a collision with
`stockB`, the target `stockA` has a non-empty company name, so the merge
update omits it and the simulated application leaves it unchanged. -/
theorem merge_field_transfer_witness :
    (mergeDataOf "GOOG" (buildMergePreview stockA stockB).target
        (buildMergePreview stockA stockB).source).fields
      CField.company_name = none ∧
    (applyMergeData (buildMergePreview stockA stockB).target.stock
        (mergeDataOf "GOOG" (buildMergePreview stockA stockB).target
          (buildMergePreview stockA stockB).source)).fields
      CField.company_name =
      (buildMergePreview stockA stockB).target.stock.fields
        CField.company_name :=
  (merge_field_transfer stockA stockB "GOOG").2.2.1 CField.company_name
    (by decide)

/-- C6: Missing mutation-driven invalidation. The ticker-edit submit path
(both the simple rename and the merge) issues no cache-invalidation call
at all, so the client cache — in particular any fresh
`portfolio:summary` entry — is left untouched by the mutation and a
subsequent summary read within its TTL still hits the stale entry. -/
theorem submit_never_invalidates_cache {α : Type} (newTicker : String)
    (stock : Stock) (allStocks : List Stock) (c : CacheMap α) :
    (handleSubmit newTicker stock allStocks).all
      (fun call => !call.isInvalidate) = true ∧
    cacheAfterCalls c (handleSubmit newTicker stock allStocks) = c := by
  cases h : detectDuplicate newTicker stock allStocks with
  | none =>
    simp [handleSubmit, h, cacheAfterCalls, ApiCall.isInvalidate]
  | some dup =>
    simp [handleSubmit, h, performMerge, cacheAfterCalls, ApiCall.isInvalidate]

/-- C7 counterexample: with the edited stock `stockA` (ticker `"AAPL"`)
and a second stock whose ticker is the empty string, proposing the empty
ticker takes the no-collision path even though the proposal differs from
the current ticker and matches the other stock case-insensitively — the
claimed characterisation of the no-collision path is false there. -/
theorem collision_detection_counterexample :
    detectDuplicate "" stockA [stockA, stockBlankTicker] = none ∧
    ("" : String) ≠ stockA.ticker ∧
    stockBlankTicker ∈ [stockA, stockBlankTicker] ∧
    stockBlankTicker.id ≠ stockA.id ∧
    strToUpper stockBlankTicker.ticker = strToUpper "" := by
  refine ⟨rfl, by decide, ?_, by decide, rfl⟩
  exact List.mem_cons_of_mem stockA (List.mem_cons_self stockBlankTicker [])

/-- C7 (amended): the no-collision (simple rename) path is taken iff the
proposed ticker is empty, equals the edited stock's current ticker, or
matches no other stock's ticker case-insensitively; and any detected
duplicate is another stock whose ticker matches the proposal
case-insensitively. -/
theorem collision_detection (newTicker : String) (stock : Stock)
    (allStocks : List Stock) :
    (detectDuplicate newTicker stock allStocks = none ↔
      (newTicker = "" ∨ newTicker = stock.ticker ∨
       ∀ s ∈ allStocks, s.id = stock.id ∨
         (strToUpper s.ticker) ≠ (strToUpper newTicker))) ∧
    (∀ B, detectDuplicate newTicker stock allStocks = some B →
      B ∈ allStocks ∧ B.id ≠ stock.id ∧
      (strToUpper B.ticker) = (strToUpper newTicker)) := by
  by_cases hc : newTicker ≠ "" ∧ newTicker ≠ stock.ticker
  · constructor
    · rw [detectDuplicate, if_pos hc]
      constructor
      · intro hnone
        refine Or.inr (Or.inr ?_)
        intro s hs
        have hp := List.find?_eq_none.mp hnone s hs
        simp only [decide_eq_true_eq] at hp
        by_cases hid : s.id = stock.id
        · exact Or.inl hid
        · refine Or.inr ?_
          intro heq
          exact hp ⟨hid, heq⟩
      · intro h
        rcases h with h | h | h
        · exact absurd h hc.1
        · exact absurd h hc.2
        · refine List.find?_eq_none.mpr ?_
          intro s hs
          simp only [decide_eq_true_eq]
          intro hp
          rcases h s hs with h1 | h1
          · exact hp.1 h1
          · exact h1 hp.2
    · intro B hB
      rw [detectDuplicate, if_pos hc] at hB
      have hmem := List.mem_of_find?_eq_some hB
      have hp := List.find?_some hB
      simp only [decide_eq_true_eq] at hp
      exact ⟨hmem, hp.1, hp.2⟩
  · constructor
    · rw [detectDuplicate, if_neg hc]
      constructor
      · intro _
        rcases not_and_or.mp hc with h | h
        · exact Or.inl (not_not.mp h)
        · exact Or.inr (Or.inl (not_not.mp h))
      · intro _
        rfl
    · intro B hB
      rw [detectDuplicate, if_neg hc] at hB
      exact absurd hB (Option.noConfusion)

/-- Witness for C7: proposing the lowercase ticker `"goog"` for `stockA`
collides with `stockB`, whose stored ticker is `"GOOG"`. -/
theorem collision_detection_witness :
    stockB ∈ [stockA, stockB] ∧ stockB.id ≠ stockA.id ∧
    strToUpper stockB.ticker = strToUpper "goog" :=
  (collision_detection "goog" stockA [stockA, stockB]).2 stockB (by rfl)

/-- C8 counterexample: editing `stockA` (ticker `"AAPL"`, 14 filled
fields) to `"GOOG"` collides with `stockB`; `stockA` wins the merge, the
surviving ticker carried by the update is `"GOOG"`, yet the delete reason
names the target's pre-merge ticker `"AAPL"`, not the surviving ticker. -/
theorem merge_reason_counterexample :
    deleteReasonOf (handleSubmit "GOOG" stockA [stockA, stockB]) =
      some "Merged into AAPL (Apple Inc)" ∧
    mergeTickerOf (handleSubmit "GOOG" stockA [stockA, stockB]) =
      some "GOOG" ∧
    ("Merged into AAPL (Apple Inc)" : String) ≠
      "Merged into GOOG (Apple Inc)" := by
  refine ⟨by rfl, by rfl, by decide⟩

/-- C8 (amended): when a detected collision is merged, the source stock is
deleted with the reason `"Merged into <ticker> (<company name>)"` where
`<ticker>` is the target's pre-merge ticker (the value the target record
held before the rename) and `<company name>` is the target's company
name. -/
theorem merge_reason (newTicker : String) (stock : Stock)
    (allStocks : List Stock) (dup : Stock)
    (h : detectDuplicate newTicker stock allStocks = some dup) :
    deleteReasonOf (handleSubmit newTicker stock allStocks) =
      some ("Merged into " ++
        (buildMergePreview stock dup).target.stock.ticker ++ " (" ++
        jsToString ((buildMergePreview stock dup).target.stock.fields
          CField.company_name) ++ ")") := by
  simp [handleSubmit, h, performMerge, deleteReasonOf, mergeReason]

/-- Witness for C8: the merge of `stockA` into a collision with `stockB`
deletes the source with a reason naming the target's pre-merge ticker and
company. -/
theorem merge_reason_witness :
    deleteReasonOf (handleSubmit "GOOG" stockA [stockA, stockB]) =
      some ("Merged into " ++
        (buildMergePreview stockA stockB).target.stock.ticker ++ " (" ++
        jsToString ((buildMergePreview stockA stockB).target.stock.fields
          CField.company_name) ++ ")") :=
  merge_reason "GOOG" stockA [stockA, stockB] stockB (by rfl)

/-- C9: Non-atomic merge with no compensation. `performMerge` issues
exactly two calls, the target update strictly before the source delete;
when the update succeeds and the delete fails, the run stops at the failed
delete with the update applied (the target keeps the uppercased new ticker)
and nothing after it — no compensating call exists — and the surfaced
error message is never empty. -/
theorem merge_not_atomic (newTicker : String) (plan : MergePlan)
    (stocks : List Stock) (fails : ApiCall → Bool)
    (hupd : fails (ApiCall.updateStock plan.target.stock.id
      (mergeDataOf newTicker plan.target plan.source)) = false)
    (hdel : fails (ApiCall.deleteStock plan.source.stock.id
      (mergeReason plan.target)) = true) :
    performMerge newTicker plan =
      [ApiCall.updateStock plan.target.stock.id
        (mergeDataOf newTicker plan.target plan.source),
       ApiCall.deleteStock plan.source.stock.id (mergeReason plan.target)] ∧
    runCallsState fails stocks (performMerge newTicker plan) =
      (stocks.map (fun s =>
        if s.id = plan.target.stock.id then
          applyMergeData s (mergeDataOf newTicker plan.target plan.source)
        else s),
       some (ApiCall.deleteStock plan.source.stock.id
         (mergeReason plan.target))) ∧
    (applyMergeData plan.target.stock
      (mergeDataOf newTicker plan.target plan.source)).ticker =
        strToUpper newTicker ∧
    (plan.source.stock ∈ stocks → plan.source.stock.id ≠ plan.target.stock.id →
      plan.source.stock ∈
        (runCallsState fails stocks (performMerge newTicker plan)).1) ∧
    ∀ d : Option String, errorMessage d ≠ "" := by
  have hrun : runCallsState fails stocks (performMerge newTicker plan) =
      (stocks.map (fun s =>
        if s.id = plan.target.stock.id then
          applyMergeData s (mergeDataOf newTicker plan.target plan.source)
        else s),
       some (ApiCall.deleteStock plan.source.stock.id
         (mergeReason plan.target))) := by
    simp [performMerge, runCallsState, hupd, hdel, applyCall]
  refine ⟨rfl, hrun, ?_, ?_, ?_⟩
  · simp [applyMergeData, mergeDataOf_ticker]
  · intro hmem hne
    rw [hrun]
    show plan.source.stock ∈ stocks.map (fun s =>
      if s.id = plan.target.stock.id then
        applyMergeData s (mergeDataOf newTicker plan.target plan.source)
      else s)
    exact List.mem_map.mpr ⟨plan.source.stock, hmem, if_neg hne⟩
  · intro d
    cases d with
    | none => simp [errorMessage]
    | some s =>
      by_cases hs : s = ""
      · simp [errorMessage, hs]
      · simp [errorMessage, hs]

/-- Witness for C9: with a backend that fails exactly the delete call, the
merge of `stockA` with `stockB` applies the target update and stops at the
failed delete. -/
theorem merge_not_atomic_witness :
    runCallsState ApiCall.isDelete [stockA, stockB]
        (performMerge "GOOG" (buildMergePreview stockA stockB)) =
      ([stockA, stockB].map (fun s =>
        if s.id = (buildMergePreview stockA stockB).target.stock.id then
          applyMergeData s (mergeDataOf "GOOG"
            (buildMergePreview stockA stockB).target
            (buildMergePreview stockA stockB).source)
        else s),
       some (ApiCall.deleteStock
         (buildMergePreview stockA stockB).source.stock.id
         (mergeReason (buildMergePreview stockA stockB).target))) :=
  (merge_not_atomic "GOOG" (buildMergePreview stockA stockB)
    [stockA, stockB] ApiCall.isDelete rfl rfl).2.1

/-- C10: Ticker normalization on write. Every call emitted by the submit
path that carries a ticker carries the uppercased proposal — the simple
rename patches the field to the uppercased ticker and the merge update's
ticker entry is the uppercased ticker — and some emitted call does carry
it. -/
theorem ticker_normalization (newTicker : String) (stock : Stock)
    (allStocks : List Stock) :
    (∀ c ∈ handleSubmit newTicker stock allStocks,
      tickerSentOf c = none ∨ tickerSentOf c = some (strToUpper newTicker)) ∧
    ∃ c ∈ handleSubmit newTicker stock allStocks,
      tickerSentOf c = some (strToUpper newTicker) := by
  cases h : detectDuplicate newTicker stock allStocks with
  | none =>
    constructor
    · intro c hc
      simp only [handleSubmit, h, List.mem_singleton] at hc
      subst hc
      right
      simp [tickerSentOf]
    · refine ⟨ApiCall.updateField stock.id "ticker"
        (JSValue.str (strToUpper newTicker)), ?_, ?_⟩
      · simp [handleSubmit, h]
      · simp [tickerSentOf]
  | some dup =>
    constructor
    · intro c hc
      simp only [handleSubmit, h, performMerge, List.mem_cons,
        List.mem_singleton, List.not_mem_nil, or_false] at hc
      rcases hc with hc | hc
      · subst hc
        right
        simp [tickerSentOf, mergeDataOf_ticker]
      · subst hc
        left
        rfl
    · refine ⟨ApiCall.updateStock (buildMergePreview stock dup).target.stock.id
        (mergeDataOf newTicker (buildMergePreview stock dup).target
          (buildMergePreview stock dup).source), ?_, ?_⟩
      · simp [handleSubmit, h, performMerge]
      · simp [tickerSentOf, mergeDataOf_ticker]

/-- Witness for C10: submitting the lowercase proposal `"msft"` for
`stockA` (no collision) patches the ticker field with `"MSFT"`. -/
theorem ticker_normalization_witness :
    tickerSentOf (ApiCall.updateField 1 "ticker" (JSValue.str "MSFT")) =
        none ∨
    tickerSentOf (ApiCall.updateField 1 "ticker" (JSValue.str "MSFT")) =
        some (strToUpper "msft") :=
  (ticker_normalization "msft" stockA [stockA]).1
    (ApiCall.updateField 1 "ticker" (JSValue.str "MSFT"))
    (by rw [show handleSubmit "msft" stockA [stockA] =
        [ApiCall.updateField 1 "ticker" (JSValue.str "MSFT")] from rfl]
        exact List.mem_singleton.mpr rfl)
